import Mathlib

/-!
Shallow embedding of `text_extract.py`: a directory walker that extracts
text from docx/pptx/xlsx/pdf files, segments it into sentences, and writes
the resulting records to CSV and XLSX.

External library calls (python-docx, python-pptx, openpyxl, pdfplumber,
pdf2image, pytesseract, nltk, pandas) are modelled by their observable
results: each file carries, for every format, the outcome (`Except`) that
opening it with the corresponding library would produce, and the nltk
sentence segmenter is an arbitrary function parameter.  Python exceptions
are modelled with `Except String`.
-/

/-- A Python value as it appears in a record cell: `None`, an `int`, or a `str`. -/
inductive PyVal where
  | none : PyVal
  | int : Nat → PyVal
  | str : String → PyVal
  deriving DecidableEq, Repr

/-- A word document as python-docx exposes it: paragraph texts and the texts of
the comment elements found by the `//w:comment` xpath query. -/
structure DocxDoc where
  paragraphs : List String
  comments : List String
  deriving DecidableEq, Repr

/-- A pptx shape: whether it has a `text` attribute, and that text. -/
structure Shape where
  hasText : Bool
  text : String
  deriving DecidableEq, Repr

/-- A spreadsheet worksheet: its name and its rows of cell values
(`none` models a `None` cell; a present cell is modelled by its `str()` form,
with formulas already resolved since the workbook is loaded with `data_only`). -/
structure XlsxSheet where
  name : String
  rows : List (List (Option String))
  deriving DecidableEq, Repr

/-- One image produced by rasterizing a PDF page, modelled by the outcome of
running `pytesseract.image_to_string` on it. -/
structure PdfImage where
  ocrResult : Except String String
  deriving Repr

/-- Whether running OCR on this image would succeed. -/
def PdfImage.ok (img : PdfImage) : Bool :=
  match img.ocrResult with
  | .ok _ => true
  | .error _ => false

/-- One PDF page: the outcome of `page.extract_text()` (which may return `None`),
and the outcome of `convert_from_path(file, first_page=i+1, last_page=i+1)`
for this page. -/
structure PdfPage where
  extractTextResult : Except String (Option String)
  convertResult : Except String (List PdfImage)
  deriving Repr

/-- Whether every library call that processing this page could make succeeds. -/
def pdfPageOk (p : PdfPage) : Bool :=
  (match p.extractTextResult with
   | .ok _ => true
   | .error _ => false) &&
  (match p.convertResult with
   | .ok imgs => imgs.all PdfImage.ok
   | .error _ => false)

/-- A file on disk, modelled by its name and, for each format, what opening it
with that format's library would yield (`.error` = the library call raises). -/
structure File where
  name : String
  docxData : Except String DocxDoc
  pptxData : Except String (List (List Shape))
  xlsxData : Except String (List XlsxSheet)
  pdfData : Except String (List PdfPage)
  deriving Repr

/-- Python's `enumerate(xs, start)`. -/
def pyEnumerate (start : Nat) : List α → List (Nat × α)
  | [] => []
  | a :: as => (start, a) :: pyEnumerate (start + 1) as

/-- Python's `s.strip()`: drop whitespace from both ends. -/
def pyStrip (s : String) : String :=
  String.mk
    (((s.toList.dropWhile Char.isWhitespace).reverse.dropWhile
      Char.isWhitespace).reverse)

/-- Truthiness of `s.strip()` negated: `true` iff `s` is blank (empty after
stripping whitespace). -/
def pyBlank (s : String) : Bool :=
  ((s.toList.dropWhile Char.isWhitespace).reverse.dropWhile
    Char.isWhitespace).isEmpty

/-- Python's `s.split(".")` on the character list of a string: split on every
dot, keeping empty components; never returns an empty list. -/
def splitDot : List Char → List (List Char)
  | [] => [[]]
  | c :: rest =>
    match splitDot rest with
    | [] => [[]]
    | hd :: tl => if c = '.' then [] :: hd :: tl else (c :: hd) :: tl

/-- `filename.lower().split(".")[-1]` from `process_directory`
(`.lower()` modelled as per-character `Char.toLower`). -/
def fileExt (filename : String) : String :=
  String.mk ((splitDot (filename.toList.map Char.toLower)).getLastD [])

/-- `extract_docx`: non-blank stripped paragraph texts, plus the comment texts
(set only when the xpath query result is non-empty). -/
def extract_docx (docxData : Except String DocxDoc) :
    Except String (List String × List String) :=
  match docxData with
  | .error e => .error e
  | .ok doc =>
    let text := doc.paragraphs.filterMap fun p =>
      if pyBlank p then none else some (pyStrip p)
    let comments := if doc.comments.isEmpty then [] else doc.comments
    .ok (text, comments)

/-- `extract_pptx`: for each slide (1-indexed), the non-blank stripped shape
texts joined with a single space. -/
def extract_pptx (pptxData : Except String (List (List Shape))) :
    Except String (List (Nat × String)) :=
  match pptxData with
  | .error e => .error e
  | .ok slides =>
    .ok ((pyEnumerate 0 slides).map fun p =>
      (p.1 + 1, " ".intercalate (p.2.filterMap fun s =>
        if s.hasText && !pyBlank s.text then some (pyStrip s.text) else none)))

/-- The row text built by `extract_xlsx`: non-`None` cell values joined
with `" | "`. -/
def xlsxRowText (row : List (Option String)) : String :=
  " | ".intercalate (row.filterMap id)

/-- The unit list `extract_xlsx` builds from the sheets of an opened workbook:
for each sheet, for each row (enumerated from 1), `(sheet name, row index,
joined text)`, kept only when the joined text is non-blank. -/
def xlsxUnits (sheets : List XlsxSheet) : List (String × Nat × String) :=
  sheets.flatMap fun ws =>
    (pyEnumerate 1 ws.rows).filterMap fun p =>
      let row_text := xlsxRowText p.2
      if pyBlank row_text then none else some (ws.name, p.1, row_text)

/-- `extract_xlsx`: open the workbook and collect the per-row units. -/
def extract_xlsx (xlsxData : Except String (List XlsxSheet)) :
    Except String (List (String × Nat × String)) :=
  match xlsxData with
  | .error e => .error e
  | .ok sheets => .ok (xlsxUnits sheets)

/-- The OCR loop of `extract_pdf` for one page: run OCR on each image in turn,
appending `(pageNum, text)` for each non-blank result; an OCR exception stops
the loop, keeping the units appended so far (`true` flags the exception). -/
def ocrLoop (pageNum : Nat) : List PdfImage → List (Nat × String) × Bool
  | [] => ([], false)
  | img :: rest =>
    match img.ocrResult with
    | .error _ => ([], true)
    | .ok t =>
      let r := ocrLoop pageNum rest
      ((if pyBlank t then [] else [(pageNum, t)]) ++ r.1, r.2)

/-- Outcome of the `extract_pdf` loop body on one page: the units appended for
this page, whether the OCR fallback branch was entered, and whether an
exception escaped the body (to be caught by the file-level handler). -/
structure PageOutcome where
  units : List (Nat × String)
  ocrInvoked : Bool
  failed : Bool
  deriving DecidableEq, Repr

/-- The loop body of `extract_pdf` for one page (with page number `pageNum`):
native text-layer extraction first; if its stripped text is non-blank, emit it;
otherwise, when `use_ocr`, rasterize this one page and run the OCR loop. -/
def pdfPageStep (use_ocr : Bool) (pageNum : Nat) (p : PdfPage) : PageOutcome :=
  match p.extractTextResult with
  | .error _ => ⟨[], false, true⟩
  | .ok t =>
    let page_text := t.getD ""
    if !pyBlank page_text then ⟨[(pageNum, page_text)], false, false⟩
    else if use_ocr then
      match p.convertResult with
      | .error _ => ⟨[], true, true⟩
      | .ok imgs =>
        let r := ocrLoop pageNum imgs
        ⟨r.1, true, r.2⟩
    else ⟨[], false, false⟩

/-- The page loop of `extract_pdf`, pages numbered from `i + 1`: concatenate
each page's units; on the first exception, stop and return what was collected
(the file-level `except` clause catches it). -/
def pdfPagesLoop (use_ocr : Bool) (i : Nat) : List PdfPage → List (Nat × String)
  | [] => []
  | p :: rest =>
    let o := pdfPageStep use_ocr (i + 1) p
    if o.failed then o.units else o.units ++ pdfPagesLoop use_ocr (i + 1) rest

/-- Page numbers for which the page loop enters the OCR fallback branch
(instrumentation of `pdfPagesLoop`; the source itself records nothing). -/
def pdfOcrLog (use_ocr : Bool) (i : Nat) : List PdfPage → List Nat
  | [] => []
  | p :: rest =>
    let o := pdfPageStep use_ocr (i + 1) p
    (if o.ocrInvoked then [i + 1] else []) ++
      (if o.failed then [] else pdfOcrLog use_ocr (i + 1) rest)

/-- `extract_pdf`: open the PDF and run the page loop; any exception (on open
or mid-loop) is caught and whatever units were collected are returned. -/
def extract_pdf (pdfData : Except String (List PdfPage)) (use_ocr : Bool) :
    List (Nat × String) :=
  match pdfData with
  | .error _ => []
  | .ok pages => pdfPagesLoop use_ocr 0 pages

/-- One output record (one row of the final table), with the seven fields of
the dicts built in `process_directory`. -/
structure Record where
  filePath : String
  fileName : String
  fileType : String
  pageSlideSheet : PyVal
  extractedSentence : String
  comments : PyVal
  metadata : PyVal
  deriving DecidableEq, Repr

/-- The records appended for one docx file: one per sentence of each non-blank
paragraph, with all comments joined file-wide. -/
def docxRecords (seg : String → List String) (dirpath : String) (f : File) :
    Except String (List Record) :=
  match extract_docx f.docxData with
  | .error e => .error e
  | .ok (text_list, comments) =>
    .ok (text_list.flatMap fun sent => (seg sent).map fun chunk =>
      ⟨dirpath, f.name, "docx", .none, chunk,
        .str (" | ".intercalate comments), .none⟩)

/-- The records appended for one pptx file: one per sentence of each slide's
joined text, located by slide number. -/
def pptxRecords (seg : String → List String) (dirpath : String) (f : File) :
    Except String (List Record) :=
  match extract_pptx f.pptxData with
  | .error e => .error e
  | .ok slides =>
    .ok (slides.flatMap fun sl => (seg sl.2).map fun chunk =>
      ⟨dirpath, f.name, "pptx", .int sl.1, chunk, .none, .none⟩)

/-- The records appended for one xlsx file: one per sentence of each kept row,
located by the `"sheet:row"` string. -/
def xlsxRecords (seg : String → List String) (dirpath : String) (f : File) :
    Except String (List Record) :=
  match extract_xlsx f.xlsxData with
  | .error e => .error e
  | .ok rows =>
    .ok (rows.flatMap fun u => (seg u.2.2).map fun chunk =>
      ⟨dirpath, f.name, "xlsx", .str (u.1 ++ ":" ++ toString u.2.1), chunk,
        .none, .none⟩)

/-- The records appended for one pdf file: one per sentence of each extracted
page text, located by page number (never raises: `extract_pdf` is total). -/
def pdfRecords (seg : String → List String) (dirpath : String) (f : File) :
    List Record :=
  (extract_pdf f.pdfData true).flatMap fun pg => (seg pg.2).map fun chunk =>
    ⟨dirpath, f.name, "pdf", .int pg.1, chunk, .none, .none⟩

/-- The body of the inner loop of `process_directory` for one file: dispatch on
the computed extension; unrecognized extensions contribute nothing. -/
def processFile (seg : String → List String) (dirpath : String) (f : File) :
    Except String (List Record) :=
  let file_ext := fileExt f.name
  if file_ext = "docx" then docxRecords seg dirpath f
  else if file_ext = "pptx" then pptxRecords seg dirpath f
  else if file_ext = "xlsx" then xlsxRecords seg dirpath f
  else if file_ext = "pdf" then .ok (pdfRecords seg dirpath f)
  else .ok []

/-- The inner loop of `process_directory` over one directory's file list;
an uncaught exception from any file aborts the whole run. -/
def processFiles (seg : String → List String) (dirpath : String) :
    List File → Except String (List Record)
  | [] => .ok []
  | f :: fs =>
    match processFile seg dirpath f with
    | .error e => .error e
    | .ok rs =>
      match processFiles seg dirpath fs with
      | .error e => .error e
      | .ok rest => .ok (rs ++ rest)

/-- `process_directory`: the `os.walk` output is modelled as the list of
`(dirpath, files)` pairs the walk yields, in order. -/
def process_directory (seg : String → List String) :
    List (String × List File) → Except String (List Record)
  | [] => .ok []
  | (dirpath, fs) :: rest =>
    match processFiles seg dirpath fs with
    | .error e => .error e
    | .ok rs =>
      match process_directory seg rest with
      | .error e => .error e
      | .ok more => .ok (rs ++ more)

/-- The key/value pairs of the dict built for a record, in insertion order. -/
def Record.items (r : Record) : List (String × PyVal) :=
  [("File Path", .str r.filePath),
   ("File Name", .str r.fileName),
   ("File Type", .str r.fileType),
   ("Page/Slide/Sheet", r.pageSlideSheet),
   ("Extracted sentence", .str r.extractedSentence),
   ("Comments", r.comments),
   ("Metadata", r.metadata)]

/-- The value row serialized for one record, in the fixed column order. -/
def Record.toRow (r : Record) : List PyVal :=
  r.items.map Prod.snd

/-- A serialized table: header names, data rows, and whether an index column
was written. -/
structure TableOutput where
  header : List String
  rows : List (List PyVal)
  hasIndexColumn : Bool
  deriving DecidableEq, Repr

/-- `pd.DataFrame(all_records)` viewed as a table: columns are the dict keys
(identical for every record, so the first record's key order), one value row
per record, in list order. -/
def dataFrame (rs : List Record) : TableOutput :=
  ⟨(match rs with | [] => [] | r :: _ => r.items.map Prod.fst),
   rs.map Record.toRow, false⟩

/-- `df.to_csv(path, index=False)`, at the level of table content. -/
def to_csv (rs : List Record) : TableOutput := dataFrame rs

/-- `df.to_excel(path, index=False)`, at the level of table content. -/
def to_excel (rs : List Record) : TableOutput := dataFrame rs

/-- The `__main__` pipeline: walk, then serialize the one accumulated record
list to both outputs (an uncaught exception aborts before anything is
written). -/
def mainOutputs (seg : String → List String)
    (walk : List (String × List File)) : Except String (TableOutput × TableOutput) :=
  match process_directory seg walk with
  | .error e => .error e
  | .ok all_records => .ok (to_csv all_records, to_excel all_records)

/-- The seven output column names, in the fixed order. -/
def sevenColumns : List String :=
  ["File Path", "File Name", "File Type", "Page/Slide/Sheet",
   "Extracted sentence", "Comments", "Metadata"]

/-- The per-type record invariant: the file type tag is the extension computed
from the record's own file name, and the location descriptor has the shape
fixed for that type (`None` for docx, a slide number for pptx, a
`"sheet:row"` string for xlsx, a page number for pdf). -/
def recordShapeOk (r : Record) : Prop :=
  r.fileType = fileExt r.fileName ∧
  ((r.fileType = "docx" ∧ r.pageSlideSheet = PyVal.none) ∨
   (r.fileType = "pptx" ∧ ∃ n, r.pageSlideSheet = PyVal.int n) ∨
   (r.fileType = "xlsx" ∧
     ∃ (s : String) (k : Nat), r.pageSlideSheet = PyVal.str (s ++ ":" ++ toString k)) ∨
   (r.fileType = "pdf" ∧ ∃ n, r.pageSlideSheet = PyVal.int n))

/-! ## Helper lemmas -/

theorem splitDot_length (cs : List Char) : (splitDot cs).length = cs.count '.' + 1 := by
  induction cs with
  | nil => rfl
  | cons c rest ih =>
    rcases h : splitDot rest with _ | ⟨hd, tl⟩
    · rw [h] at ih
      simp at ih
    · rw [h] at ih
      simp only [splitDot, h]
      by_cases hc : c = '.'
      · subst hc
        simp only [if_pos rfl, List.length_cons, List.count_cons_self]
        simp at ih ⊢
        omega
      · have hc' : ¬('.' = c) := fun h' => hc h'.symm
        rw [if_neg hc, List.count_cons_of_ne hc']
        simp at ih ⊢
        omega

theorem splitDot_ne_nil (cs : List Char) : splitDot cs ≠ [] := by
  intro h
  have h2 := splitDot_length cs
  rw [h] at h2
  simp at h2

theorem splitDot_no_dot (cs : List Char) (h : '.' ∉ cs) : splitDot cs = [cs] := by
  induction cs with
  | nil => rfl
  | cons c rest ih =>
    simp only [List.mem_cons, not_or] at h
    have hc : ¬(c = '.') := fun h' => h.1 h'.symm
    simp only [splitDot, ih h.2, if_neg hc]

theorem splitDot_getLastD (xs ys : List Char) (h : '.' ∉ ys) :
    (splitDot (xs ++ '.' :: ys)).getLastD [] = ys := by
  induction xs with
  | nil =>
    simp only [List.nil_append, splitDot, splitDot_no_dot ys h, if_pos rfl]
    simp
  | cons x xs ih =>
    rcases hs : splitDot (xs ++ '.' :: ys) with _ | ⟨hd, tl⟩
    · exact absurd hs (splitDot_ne_nil _)
    · rw [hs] at ih
      simp only [List.cons_append, splitDot, List.append_eq, hs]
      have hlen : tl ≠ [] := by
        intro ht
        subst ht
        have h2 := splitDot_length (xs ++ '.' :: ys)
        rw [hs, List.count_append, List.count_cons_self] at h2
        simp at h2
      by_cases hx : x = '.'
      · rw [if_pos hx, List.getLastD_cons, ← ih, List.getLastD_cons]
      · rw [if_neg hx, List.getLastD_cons, ← ih, List.getLastD_cons]
        rw [List.getLastD_eq_getLast?, List.getLastD_eq_getLast?]
        rcases hl : tl.getLast? with _ | v
        · rw [List.getLast?_eq_none_iff] at hl
          exact absurd hl hlen
        · rfl

theorem toLower_eq_dot (c : Char) (h : Char.toLower c = '.') : c = '.' := by
  by_cases hr : c.toNat ≥ 65 ∧ c.toNat ≤ 90
  · exfalso
    simp only [Char.toLower] at h
    rw [if_pos hr] at h
    have hlt : c.toNat + 32 < 55296 := by omega
    have hv : (c.toNat + 32).isValidChar := Or.inl hlt
    rw [Char.ofNat, dif_pos hv] at h
    have h2 : (Char.ofNatAux (c.toNat + 32) hv).toNat = c.toNat + 32 := rfl
    rw [h] at h2
    have h46 : ('.' : Char).toNat = 46 := by decide
    omega
  · simp only [Char.toLower] at h
    rw [if_neg hr] at h
    exact h

/-! ## Claims -/

/-- C5: For every file visited by the directory walk, the dispatcher determines
its type from the lowercase substring after the final "." in the file name; a
file whose computed extension is not one of docx, pptx, xlsx, pdf is silently
skipped, contributing no records and raising no error. -/
theorem claim_C5_extension_dispatch :
    (∀ (name : String) (xs ys : List Char),
        name.toList.map Char.toLower = xs ++ '.' :: ys → '.' ∉ ys →
        fileExt name = String.mk ys) ∧
    (∀ (seg : String → List String) (dirpath : String) (f : File),
        fileExt f.name ∉ ["docx", "pptx", "xlsx", "pdf"] →
        processFile seg dirpath f = .ok []) := by
  constructor
  · intro name xs ys hmap hys
    rw [fileExt, hmap, splitDot_getLastD xs ys hys]
  · intro seg dirpath f h
    simp only [List.mem_cons, List.not_mem_nil, or_false, not_or] at h
    simp only [processFile, if_neg h.1, if_neg h.2.1, if_neg h.2.2.1, if_neg h.2.2.2]

/-- Witness for C5: `"Notes.TXT"` has computed extension `"txt"`, and a file of
that name is skipped, with no records and no error. -/
theorem claim_C5_extension_dispatch_wit :
    fileExt "Notes.TXT" = String.mk ['t', 'x', 't'] ∧
    processFile (fun s => [s]) "root"
      ⟨"Notes.TXT", .error "e", .error "e", .error "e", .error "e"⟩ = .ok [] :=
  ⟨claim_C5_extension_dispatch.1 "Notes.TXT"
      ['n', 'o', 't', 'e', 's'] ['t', 'x', 't'] (by decide) (by decide),
   claim_C5_extension_dispatch.2 (fun s => [s]) "root" _ (by decide)⟩

/-- C9: A file whose name contains no "." at all is dispatched by its entire
lowercased file name; in particular a file named exactly "docx", "pptx",
"xlsx" or "pdf" is passed to the corresponding format extractor rather than
being skipped as unrecognized. -/
theorem claim_C9_dotless_names :
    (∀ (name : String), '.' ∉ name.toList →
        fileExt name = String.mk (name.toList.map Char.toLower)) ∧
    (∀ (seg : String → List String) (dirpath : String) (f : File),
        f.name = "docx" → processFile seg dirpath f = docxRecords seg dirpath f) ∧
    (∀ (seg : String → List String) (dirpath : String) (f : File),
        f.name = "pptx" → processFile seg dirpath f = pptxRecords seg dirpath f) ∧
    (∀ (seg : String → List String) (dirpath : String) (f : File),
        f.name = "xlsx" → processFile seg dirpath f = xlsxRecords seg dirpath f) ∧
    (∀ (seg : String → List String) (dirpath : String) (f : File),
        f.name = "pdf" → processFile seg dirpath f = .ok (pdfRecords seg dirpath f)) := by
  refine ⟨?_, ?_, ?_, ?_, ?_⟩
  · intro name hdot
    have hdot2 : '.' ∉ name.toList.map Char.toLower := by
      intro hmem
      obtain ⟨c, hc, hlc⟩ := List.mem_map.mp hmem
      exact hdot (toLower_eq_dot c hlc ▸ hc)
    rw [fileExt, splitDot_no_dot _ hdot2]
    rfl
  · intro seg dirpath f h
    have he : fileExt f.name = "docx" := by rw [h]; decide
    simp only [processFile, he, String.reduceEq, reduceIte]
  · intro seg dirpath f h
    have he : fileExt f.name = "pptx" := by rw [h]; decide
    simp only [processFile, he, String.reduceEq, reduceIte]
  · intro seg dirpath f h
    have he : fileExt f.name = "xlsx" := by rw [h]; decide
    simp only [processFile, he, String.reduceEq, reduceIte]
  · intro seg dirpath f h
    have he : fileExt f.name = "pdf" := by rw [h]; decide
    simp only [processFile, he, String.reduceEq, reduceIte]

/-- Witness for C9: `"PDF"` (no dot) computes to extension `"pdf"`, and a file
named exactly `"pdf"` is dispatched to the PDF extractor. -/
theorem claim_C9_dotless_names_wit :
    fileExt "PDF" = String.mk (("PDF".toList).map Char.toLower) ∧
    processFile (fun s => [s]) "root"
      ⟨"pdf", .error "e", .error "e", .error "e",
        .ok [⟨.ok (some "hello"), .ok []⟩]⟩ =
      .ok (pdfRecords (fun s => [s]) "root"
        ⟨"pdf", .error "e", .error "e", .error "e",
          .ok [⟨.ok (some "hello"), .ok []⟩]⟩) :=
  ⟨claim_C9_dotless_names.1 "PDF" (by decide),
   claim_C9_dotless_names.2.2.2.2 (fun s => [s]) "root" _ rfl⟩

/-- C3 (code evaluated at the failing input): a directory containing a single
corrupt `.docx` file — whose open raises — makes the whole
`process_directory` run abort with that error, contradicting the claim that no
format extractor raises up to the top-level directory walk. -/
theorem claim_C3_docx_error_aborts_run :
    process_directory (fun s => [s])
      [("root", [⟨"bad.docx", .error "broken file", .ok [], .ok [], .ok []⟩])] =
      .error "broken file" := by
  rfl

theorem ocrLoop_no_fail (n : Nat) (imgs : List PdfImage)
    (h : imgs.all PdfImage.ok = true) : (ocrLoop n imgs).2 = false := by
  induction imgs with
  | nil => rfl
  | cons img rest ih =>
    simp only [List.all_cons, Bool.and_eq_true] at h
    rcases ho : img.ocrResult with e | t
    · rw [PdfImage.ok, ho] at h
      simp at h
    · simp only [ocrLoop, ho]
      exact ih h.2

theorem pdfPageStep_no_fail (b : Bool) (n : Nat) (p : PdfPage)
    (h : pdfPageOk p = true) : (pdfPageStep b n p).failed = false := by
  rw [pdfPageOk, Bool.and_eq_true] at h
  rcases he : p.extractTextResult with e | t
  · rw [he] at h
    simp at h
  · rcases hbv : pyBlank (t.getD "") with _ | _
    · simp [pdfPageStep, he, hbv]
    · cases b with
      | false => simp [pdfPageStep, he, hbv]
      | true =>
        rcases hc : p.convertResult with e | imgs
        · rw [hc] at h
          simp at h
        · simp only [pdfPageStep, he, hbv, hc, Bool.not_true, Bool.false_eq_true,
            if_false, if_true]
          rw [hc] at h
          exact ocrLoop_no_fail n imgs h.2

theorem ocrLoop_keys (n : Nat) (imgs : List PdfImage) :
    ∀ u ∈ (ocrLoop n imgs).1, u.1 = n := by
  induction imgs with
  | nil => intro u hu; simp [ocrLoop] at hu
  | cons img rest ih =>
    intro u hu
    rcases ho : img.ocrResult with e | t
    · simp [ocrLoop, ho] at hu
    · simp only [ocrLoop, ho, List.mem_append] at hu
      rcases hu with hu | hu
      · rcases hbt : pyBlank t with _ | _ <;> rw [hbt] at hu <;> simp at hu
        simp [hu]
      · exact ih u hu

theorem pdfPageStep_keys (b : Bool) (n : Nat) (p : PdfPage) :
    ∀ u ∈ (pdfPageStep b n p).units, u.1 = n := by
  intro u hu
  rcases he : p.extractTextResult with e | t
  · simp [pdfPageStep, he] at hu
  · rcases hbv : pyBlank (t.getD "") with _ | _
    · simp [pdfPageStep, he, hbv] at hu
      simp [hu]
    · cases b with
      | false => simp [pdfPageStep, he, hbv] at hu
      | true =>
        rcases hc : p.convertResult with e | imgs
        · simp [pdfPageStep, he, hbv, hc] at hu
        · simp only [pdfPageStep, he, hbv, hc, Bool.not_true, Bool.false_eq_true,
            if_false, if_true] at hu
          exact ocrLoop_keys n imgs u hu

theorem pdfPagesLoop_keys (b : Bool) (pages : List PdfPage) :
    ∀ k, ∀ u ∈ pdfPagesLoop b k pages, k < u.1 := by
  induction pages with
  | nil => intro k u hu; simp [pdfPagesLoop] at hu
  | cons p rest ih =>
    intro k u hu
    simp only [pdfPagesLoop] at hu
    rcases hf : (pdfPageStep b (k + 1) p).failed with _ | _
    · rw [hf] at hu
      simp only [Bool.false_eq_true, if_false, List.mem_append] at hu
      rcases hu with hu | hu
      · rw [pdfPageStep_keys b (k + 1) p u hu]
        omega
      · have := ih (k + 1) u hu
        omega
    · rw [hf] at hu
      simp only [if_true] at hu
      rw [pdfPageStep_keys b (k + 1) p u hu]
      omega

theorem pdfOcrLog_keys (b : Bool) (pages : List PdfPage) :
    ∀ k, ∀ x ∈ pdfOcrLog b k pages, k < x := by
  induction pages with
  | nil => intro k x hx; simp [pdfOcrLog] at hx
  | cons p rest ih =>
    intro k x hx
    simp only [pdfOcrLog, List.mem_append] at hx
    rcases hx with hx | hx
    · rcases hi : (pdfPageStep b (k + 1) p).ocrInvoked with _ | _ <;>
        rw [hi] at hx <;> simp at hx
      omega
    · rcases hf : (pdfPageStep b (k + 1) p).failed with _ | _ <;> rw [hf] at hx
      · simp only [Bool.false_eq_true, if_false] at hx
        have := ih (k + 1) x hx
        omega
      · simp at hx

theorem pdfPagesLoop_filter (b : Bool) (pages : List PdfPage) :
    ∀ k i (hi : i < pages.length), (∀ p ∈ pages, pdfPageOk p = true) →
      (pdfPagesLoop b k pages).filter (fun u => u.1 == k + i + 1) =
        (pdfPageStep b (k + i + 1) (pages.get ⟨i, hi⟩)).units := by
  induction pages with
  | nil => intro k i hi; simp at hi
  | cons p rest ih =>
    intro k i hi hok
    have hp := hok p (List.mem_cons_self p rest)
    have hrest : ∀ q ∈ rest, pdfPageOk q = true :=
      fun q hq => hok q (List.mem_cons_of_mem p hq)
    simp only [pdfPagesLoop, pdfPageStep_no_fail b (k + 1) p hp, Bool.false_eq_true,
      if_false, List.filter_append]
    cases i with
    | zero =>
      have h1 : (pdfPageStep b (k + 1) p).units.filter (fun u => u.1 == k + 0 + 1) =
          (pdfPageStep b (k + 1) p).units := by
        apply List.filter_eq_self.mpr
        intro u hu
        rw [pdfPageStep_keys b (k + 1) p u hu]
        simp
      have h2 : (pdfPagesLoop b (k + 1) rest).filter (fun u => u.1 == k + 0 + 1) = [] := by
        apply List.filter_eq_nil_iff.mpr
        intro u hu
        have := pdfPagesLoop_keys b rest (k + 1) u hu
        simp only [beq_iff_eq]
        omega
      rw [h1, h2, List.append_nil]
      rfl
    | succ j =>
      have h1 : (pdfPageStep b (k + 1) p).units.filter (fun u => u.1 == k + (j + 1) + 1) = [] := by
        apply List.filter_eq_nil_iff.mpr
        intro u hu
        rw [pdfPageStep_keys b (k + 1) p u hu]
        simp only [beq_iff_eq]
        omega
      have hj : j < rest.length := by
        simp at hi
        omega
      have h2 := ih (k + 1) j hj hrest
      rw [h1, List.nil_append]
      have harith : k + 1 + j + 1 = k + (j + 1) + 1 := by omega
      rw [harith] at h2
      rw [h2]
      rfl

theorem pdfOcrLog_mem (b : Bool) (pages : List PdfPage) :
    ∀ k i (hi : i < pages.length), (∀ p ∈ pages, pdfPageOk p = true) →
      ((k + i + 1) ∈ pdfOcrLog b k pages ↔
        (pdfPageStep b (k + i + 1) (pages.get ⟨i, hi⟩)).ocrInvoked = true) := by
  induction pages with
  | nil => intro k i hi; simp at hi
  | cons p rest ih =>
    intro k i hi hok
    have hp := hok p (List.mem_cons_self p rest)
    have hrest : ∀ q ∈ rest, pdfPageOk q = true :=
      fun q hq => hok q (List.mem_cons_of_mem p hq)
    simp only [pdfOcrLog, pdfPageStep_no_fail b (k + 1) p hp, Bool.false_eq_true,
      if_false, List.mem_append]
    cases i with
    | zero =>
      have h2 : (k + 0 + 1) ∉ pdfOcrLog b (k + 1) rest := by
        intro hx
        have := pdfOcrLog_keys b rest (k + 1) _ hx
        omega
      rcases hv : (pdfPageStep b (k + 1) p).ocrInvoked with _ | _
      · simp only [Bool.false_eq_true, if_false, List.not_mem_nil, false_or]
        constructor
        · intro hx
          exact absurd hx h2
        · intro hx
          have hx2 : (pdfPageStep b (k + 0 + 1) p).ocrInvoked = true := hx
          rw [show k + 0 + 1 = k + 1 by omega, hv] at hx2
          simp at hx2
      · simp only [if_true, List.mem_singleton]
        constructor
        · intro _
          show (pdfPageStep b (k + 0 + 1) p).ocrInvoked = true
          rw [show k + 0 + 1 = k + 1 by omega]
          exact hv
        · intro _
          left
          simp
    | succ j =>
      have hj : j < rest.length := by
        simp only [List.length_cons] at hi
        omega
      have h1 : k + (j + 1) + 1 ∉ (if (pdfPageStep b (k + 1) p).ocrInvoked then [k + 1] else []) := by
        rcases hv : (pdfPageStep b (k + 1) p).ocrInvoked with _ | _ <;> simp
      have h2 := ih (k + 1) j hj hrest
      rw [show k + 1 + j + 1 = k + (j + 1) + 1 by omega] at h2
      constructor
      · intro hx
        rcases hx with hx | hx
        · exact absurd hx h1
        · exact h2.mp hx
      · intro hx
        right
        exact h2.mpr hx

theorem pdfPagesLoop_split (b : Bool) (good : List PdfPage) (bad : PdfPage)
    (rest : List PdfPage) :
    ∀ k, (∀ j (h : j < good.length), (pdfPageStep b (k + j + 1) (good.get ⟨j, h⟩)).failed = false) →
      (pdfPageStep b (k + good.length + 1) bad).failed = true →
      pdfPagesLoop b k (good ++ bad :: rest) =
        pdfPagesLoop b k good ++ (pdfPageStep b (k + good.length + 1) bad).units := by
  induction good with
  | nil =>
    intro k _ hbad
    simp only [List.nil_append, pdfPagesLoop, List.length_nil] at *
    rw [show k + 0 + 1 = k + 1 by omega] at hbad
    rw [hbad]
    simp
  | cons g gs ih =>
    intro k hg hbad
    have hg0 : (pdfPageStep b (k + 1) g).failed = false := by
      have := hg 0 (by simp)
      rw [show k + 0 + 1 = k + 1 by omega] at this
      exact this
    simp only [List.cons_append, pdfPagesLoop, hg0, Bool.false_eq_true, if_false]
    rw [List.append_assoc]
    congr 1
    simp only [List.append_eq]
    rw [show k + (g :: gs).length + 1 = k + 1 + gs.length + 1 by simp; omega]
    apply ih (k + 1)
    · intro j hj
      have := hg (j + 1) (by simp; omega)
      rw [show k + (j + 1) + 1 = k + 1 + j + 1 by omega] at this
      exact this
    · rw [show k + 1 + gs.length + 1 = k + (g :: gs).length + 1 by simp; omega]
      exact hbad

/-- C1: For every PDF file and every page (1-indexed), assuming every library
call on the file succeeds and the page rasterizes to one image: if native
text-layer extraction returns non-blank text, that text is the page's one
extraction unit and the OCR fallback is never entered for that page; if the
native text is blank, that one page enters the OCR fallback and the OCR text
is emitted exactly when it is non-blank — so a page yielding neither non-blank
native text nor non-blank OCR text contributes no extraction unit. -/
theorem claim_C1_pdf_page_policy (pages : List PdfPage) (i : Nat) (hi : i < pages.length)
    (hok : ∀ p ∈ pages, pdfPageOk p = true)
    (nt : Option String) (hn : (pages.get ⟨i, hi⟩).extractTextResult = .ok nt)
    (img : PdfImage) (himg : (pages.get ⟨i, hi⟩).convertResult = .ok [img])
    (ot : String) (ho : img.ocrResult = .ok ot) :
    (pyBlank (nt.getD "") = false →
        (extract_pdf (.ok pages) true).filter (fun u => u.1 == i + 1) =
          [(i + 1, nt.getD "")] ∧
        (i + 1) ∉ pdfOcrLog true 0 pages) ∧
    (pyBlank (nt.getD "") = true →
        (i + 1) ∈ pdfOcrLog true 0 pages ∧
        (extract_pdf (.ok pages) true).filter (fun u => u.1 == i + 1) =
          if pyBlank ot then [] else [(i + 1, ot)]) := by
  have hfilter := pdfPagesLoop_filter true pages 0 i hi hok
  rw [show (0 : Nat) + i + 1 = i + 1 by omega] at hfilter
  have hlog := pdfOcrLog_mem true pages 0 i hi hok
  rw [show (0 : Nat) + i + 1 = i + 1 by omega] at hlog
  constructor
  · intro hb
    have hstep : pdfPageStep true (i + 1) (pages.get ⟨i, hi⟩) =
        ⟨[(i + 1, nt.getD "")], false, false⟩ := by
      have hn2 : pages[i].extractTextResult = Except.ok nt := hn
      simp [pdfPageStep, hn2, hb]
    constructor
    · simp only [extract_pdf]
      rw [hfilter, hstep]
    · intro hmem
      have h2 := hlog.mp hmem
      rw [hstep] at h2
      simp at h2
  · intro hb
    have hstep : pdfPageStep true (i + 1) (pages.get ⟨i, hi⟩) =
        ⟨(if pyBlank ot then [] else [(i + 1, ot)]), true, false⟩ := by
      have hn2 : pages[i].extractTextResult = Except.ok nt := hn
      have himg2 : pages[i].convertResult = Except.ok [img] := himg
      simp [pdfPageStep, hn2, hb, himg2, ocrLoop, ho]
    constructor
    · apply hlog.mpr
      rw [hstep]
    · simp only [extract_pdf]
      rw [hfilter, hstep]

/-- Witness for C1 on a concrete two-page PDF: page 1 has native text
`"hello"` (used as-is, no OCR); page 2 has a blank native layer and OCR
produces `"world"`. -/
theorem claim_C1_pdf_page_policy_wit :
    (extract_pdf (.ok [⟨.ok (some "hello"), .ok [⟨.ok "x"⟩]⟩,
        ⟨.ok (some ""), .ok [⟨.ok "world"⟩]⟩]) true).filter (fun u => u.1 == 1) =
      [(1, "hello")] ∧
    (1 : Nat) ∉ pdfOcrLog true 0 [⟨.ok (some "hello"), .ok [⟨.ok "x"⟩]⟩,
        ⟨.ok (some ""), .ok [⟨.ok "world"⟩]⟩] ∧
    (2 : Nat) ∈ pdfOcrLog true 0 [⟨.ok (some "hello"), .ok [⟨.ok "x"⟩]⟩,
        ⟨.ok (some ""), .ok [⟨.ok "world"⟩]⟩] ∧
    (extract_pdf (.ok [⟨.ok (some "hello"), .ok [⟨.ok "x"⟩]⟩,
        ⟨.ok (some ""), .ok [⟨.ok "world"⟩]⟩]) true).filter (fun u => u.1 == 2) =
      [(2, "world")] := by
  have h1 := claim_C1_pdf_page_policy
    [⟨.ok (some "hello"), .ok [⟨.ok "x"⟩]⟩, ⟨.ok (some ""), .ok [⟨.ok "world"⟩]⟩]
    0 (by decide) (by decide) (some "hello") rfl ⟨.ok "x"⟩ rfl "x" rfl
  have h2 := claim_C1_pdf_page_policy
    [⟨.ok (some "hello"), .ok [⟨.ok "x"⟩]⟩, ⟨.ok (some ""), .ok [⟨.ok "world"⟩]⟩]
    1 (by decide) (by decide) (some "") rfl ⟨.ok "world"⟩ rfl "world" rfl
  have ha := h1.1 (by decide)
  have hb := h2.2 (by decide)
  exact ⟨ha.1, ha.2, hb.1, hb.2.trans (by decide)⟩

/-- C2: Any exception during a PDF file's processing is caught inside
`extract_pdf`: a failure on open yields the empty unit list; a failure at some
page yields exactly the units collected before the failure (everything after
the failing page is irrelevant); and the dispatcher's pdf branch never
propagates an error, so the directory run continues. -/
theorem claim_C2_pdf_error_containment :
    (∀ (e : String) (b : Bool), extract_pdf (.error e) b = []) ∧
    (∀ (b : Bool) (good : List PdfPage) (bad : PdfPage) (rest : List PdfPage),
        (∀ j (h : j < good.length),
          (pdfPageStep b (j + 1) (good.get ⟨j, h⟩)).failed = false) →
        (pdfPageStep b (good.length + 1) bad).failed = true →
        extract_pdf (.ok (good ++ bad :: rest)) b =
          pdfPagesLoop b 0 good ++ (pdfPageStep b (good.length + 1) bad).units) ∧
    (∀ (seg : String → List String) (dirpath : String) (f : File),
        fileExt f.name = "pdf" → processFile seg dirpath f = .ok (pdfRecords seg dirpath f)) := by
  refine ⟨fun e b => rfl, ?_, ?_⟩
  · intro b good bad rest hg hbad
    simp only [extract_pdf]
    have := pdfPagesLoop_split b good bad rest 0 ?_ ?_
    · rw [show (0 : Nat) + good.length + 1 = good.length + 1 by omega] at this
      exact this
    · intro j hj
      rw [show (0 : Nat) + j + 1 = j + 1 by omega]
      exact hg j hj
    · rw [show (0 : Nat) + good.length + 1 = good.length + 1 by omega]
      exact hbad
  · intro seg dirpath f he
    simp only [processFile, he, String.reduceEq, reduceIte]

/-- Witness for C2: an unopenable PDF yields `[]`; a PDF whose OCR crashes on
page 2 (after one OCR image succeeded) yields the units collected up to that
crash, ignoring the later broken page; and a `.pdf` file whose open fails
still dispatches without error. -/
theorem claim_C2_pdf_error_containment_wit :
    extract_pdf (.error "cannot open") true = [] ∧
    extract_pdf (.ok [⟨.ok (some "hello"), .ok []⟩,
        ⟨.ok (some ""), .ok [⟨.ok "x"⟩, ⟨.error "ocr crash"⟩]⟩,
        ⟨.error "later page", .ok []⟩]) true = [(1, "hello"), (2, "x")] ∧
    processFile (fun s => [s]) "root"
      ⟨"doc.pdf", .error "e", .error "e", .error "e", .error "bad pdf"⟩ =
      .ok (pdfRecords (fun s => [s]) "root"
        ⟨"doc.pdf", .error "e", .error "e", .error "e", .error "bad pdf"⟩) := by
  refine ⟨claim_C2_pdf_error_containment.1 "cannot open" true, ?_, ?_⟩
  · have h := claim_C2_pdf_error_containment.2.1 true
      [⟨.ok (some "hello"), .ok []⟩]
      ⟨.ok (some ""), .ok [⟨.ok "x"⟩, ⟨.error "ocr crash"⟩]⟩
      [⟨.error "later page", .ok []⟩]
      (by decide) (by decide)
    exact h.trans (by decide)
  · exact claim_C2_pdf_error_containment.2.2 (fun s => [s]) "root" _ (by decide)

theorem xlsxSheetUnits_shape (nm : String) (rows : List (List (Option String))) :
    ∀ s, ∀ u ∈ (pyEnumerate s rows).filterMap (fun p =>
        if pyBlank (xlsxRowText p.2) then none
        else some (nm, p.1, xlsxRowText p.2)),
      u.1 = nm ∧ s ≤ u.2.1 := by
  induction rows with
  | nil => intro s u hu; simp [pyEnumerate] at hu
  | cons r rs ih =>
    intro s u hu
    simp only [pyEnumerate, List.filterMap_cons] at hu
    rcases hbv : pyBlank (xlsxRowText r) with _ | _ <;> rw [hbv] at hu
    · simp only [Bool.false_eq_true, if_false] at hu
      rcases List.mem_cons.mp hu with hu | hu
      · rw [hu]
        exact ⟨rfl, Nat.le_refl s⟩
      · have := ih (s + 1) u hu
        exact ⟨this.1, by omega⟩
    · simp only [if_true] at hu
      have := ih (s + 1) u hu
      exact ⟨this.1, by omega⟩

theorem xlsxSheetUnits_filter (nm : String) (rows : List (List (Option String))) :
    ∀ s i (hi : i < rows.length),
      ((pyEnumerate s rows).filterMap (fun p =>
          if pyBlank (xlsxRowText p.2) then none
          else some (nm, p.1, xlsxRowText p.2))).filter (fun u => u.2.1 == s + i) =
        (if pyBlank (xlsxRowText (rows.get ⟨i, hi⟩)) then []
         else [(nm, s + i, xlsxRowText (rows.get ⟨i, hi⟩))]) := by
  induction rows with
  | nil => intro s i hi; simp at hi
  | cons r rs ih =>
    intro s i hi
    simp only [pyEnumerate, List.filterMap_cons]
    have hrest_keys : ∀ u ∈ (pyEnumerate (s + 1) rs).filterMap (fun p =>
        if pyBlank (xlsxRowText p.2) then none
        else some (nm, p.1, xlsxRowText p.2)), s + 1 ≤ u.2.1 :=
      fun u hu => (xlsxSheetUnits_shape nm rs (s + 1) u hu).2
    cases i with
    | zero =>
      have hrest : ((pyEnumerate (s + 1) rs).filterMap (fun p =>
          if pyBlank (xlsxRowText p.2) then none
          else some (nm, p.1, xlsxRowText p.2))).filter (fun u => u.2.1 == s + 0) = [] := by
        apply List.filter_eq_nil_iff.mpr
        intro u hu
        have := hrest_keys u hu
        simp only [beq_iff_eq]
        omega
      rcases hbv : pyBlank (xlsxRowText r) with _ | _
      · simp only [Bool.false_eq_true, if_false, List.filter_cons, hrest]
        simp [hbv]
      · simp only [if_true, hrest]
        simp [hbv]
    | succ j =>
      have hj : j < rs.length := by
        simp only [List.length_cons] at hi
        omega
      have h2 := ih (s + 1) j hj
      rw [show s + 1 + j = s + (j + 1) by omega] at h2
      rcases hbv : pyBlank (xlsxRowText r) with _ | _
      · simp only [Bool.false_eq_true, if_false, List.filter_cons]
        have hfalse : ((nm, s, xlsxRowText r).2.1 == s + (j + 1)) = false := by
          simp only [beq_eq_false_iff_ne, ne_eq]
          omega
        rw [hfalse]
        simp only [Bool.false_eq_true, if_false]
        rw [h2]
        rfl
      · simp only [if_true]
        rw [h2]
        rfl

/-- C4: For every spreadsheet file (with distinct sheet names, as openpyxl
guarantees), each sheet and each 1-indexed row yield exactly one extraction
unit `(sheet name, row number, non-null cell values joined with " | ")` when
the joined text is non-blank, and no unit when it is blank; in particular a
row whose cells are all `None` yields no extraction unit. -/
theorem claim_C4_xlsx_rows (xlsxData : Except String (List XlsxSheet))
    (sheets : List XlsxSheet) (ws : XlsxSheet) (i : Nat)
    (hopen : xlsxData = .ok sheets) (hmem : ws ∈ sheets)
    (hnd : (sheets.map XlsxSheet.name).Nodup) (hi : i < ws.rows.length) :
    extract_xlsx xlsxData = .ok (xlsxUnits sheets) ∧
    (xlsxUnits sheets).filter (fun u => u.1 == ws.name && u.2.1 == i + 1) =
      (if pyBlank (xlsxRowText (ws.rows.get ⟨i, hi⟩)) then []
       else [(ws.name, i + 1, xlsxRowText (ws.rows.get ⟨i, hi⟩))]) ∧
    ((∀ c ∈ ws.rows.get ⟨i, hi⟩, c = none) →
      (xlsxUnits sheets).filter (fun u => u.1 == ws.name && u.2.1 == i + 1) = []) := by
  have hmain : (xlsxUnits sheets).filter (fun u => u.1 == ws.name && u.2.1 == i + 1) =
      (if pyBlank (xlsxRowText (ws.rows.get ⟨i, hi⟩)) then []
       else [(ws.name, i + 1, xlsxRowText (ws.rows.get ⟨i, hi⟩))]) := by
    obtain ⟨pre, post, hsp⟩ := List.append_of_mem hmem
    subst hsp
    simp only [List.map_append, List.map_cons, List.nodup_append, List.nodup_cons] at hnd
    have hpre : ws.name ∉ pre.map XlsxSheet.name := by
      intro hx
      exact hnd.2.2 hx (List.mem_cons_self _ _)
    have hpost : ws.name ∉ post.map XlsxSheet.name := hnd.2.1.1
    simp only [xlsxUnits, List.flatMap_append, List.flatMap_cons, List.filter_append]
    have hprefilter : ∀ (l : List XlsxSheet), ws.name ∉ l.map XlsxSheet.name →
        (l.flatMap fun ws' => (pyEnumerate 1 ws'.rows).filterMap fun p =>
            if pyBlank (xlsxRowText p.2) then none
            else some (ws'.name, p.1, xlsxRowText p.2)).filter
          (fun u => u.1 == ws.name && u.2.1 == i + 1) = [] := by
      intro l hl
      apply List.filter_eq_nil_iff.mpr
      intro u hu
      obtain ⟨ws', hws', hu'⟩ := List.mem_flatMap.mp hu
      have hshape := xlsxSheetUnits_shape ws'.name ws'.rows 1 u hu'
      have hne : ws'.name ≠ ws.name := by
        intro hx
        exact hl (hx ▸ List.mem_map_of_mem XlsxSheet.name hws')
      simp only [hshape.1, Bool.and_eq_true, beq_iff_eq]
      intro hcon
      exact hne hcon.1
    have hmid : ((pyEnumerate 1 ws.rows).filterMap fun p =>
        if pyBlank (xlsxRowText p.2) then none
        else some (ws.name, p.1, xlsxRowText p.2)).filter
          (fun u => u.1 == ws.name && u.2.1 == i + 1) =
        (if pyBlank (xlsxRowText (ws.rows.get ⟨i, hi⟩)) then []
         else [(ws.name, i + 1, xlsxRowText (ws.rows.get ⟨i, hi⟩))]) := by
      have hcongr : ∀ u ∈ (pyEnumerate 1 ws.rows).filterMap fun p =>
          if pyBlank (xlsxRowText p.2) then none
          else some (ws.name, p.1, xlsxRowText p.2),
          (u.1 == ws.name && u.2.1 == i + 1) = (u.2.1 == 1 + i) := by
        intro u hu
        have hshape := xlsxSheetUnits_shape ws.name ws.rows 1 u hu
        rw [hshape.1]
        simp only [beq_self_eq_true, Bool.true_and]
        rw [show i + 1 = 1 + i by omega]
      rw [List.filter_congr hcongr, xlsxSheetUnits_filter ws.name ws.rows 1 i hi,
        show (1 : Nat) + i = i + 1 by omega]
    rw [hprefilter pre hpre, hprefilter post hpost, hmid]
    simp
  refine ⟨by rw [hopen]; rfl, hmain, ?_⟩
  intro hallnone
  have hempty : (ws.rows.get ⟨i, hi⟩).filterMap id = [] := by
    apply List.filterMap_eq_nil_iff.mpr
    intro c hc
    rw [hallnone c hc]
    rfl
  have hblank : pyBlank (xlsxRowText (ws.rows.get ⟨i, hi⟩)) = true := by
    rw [xlsxRowText, hempty]
    rfl
  rw [hmain, if_pos hblank]

/-- Witness for C4 on a concrete workbook: sheet `"S1"` with row 1 =
`["a", None]` and row 2 = `[None, None]` yields exactly the unit
`("S1", 1, "a")` and nothing for row 2. -/
theorem claim_C4_xlsx_rows_wit :
    (xlsxUnits [⟨"S1", [[some "a", Option.none], [Option.none, Option.none]]⟩]).filter
        (fun u => u.1 == "S1" && u.2.1 == 1) = [("S1", 1, "a")] ∧
    (xlsxUnits [⟨"S1", [[some "a", Option.none], [Option.none, Option.none]]⟩]).filter
        (fun u => u.1 == "S1" && u.2.1 == 2) = [] ∧
    extract_xlsx (.ok [⟨"S1", [[some "a", Option.none], [Option.none, Option.none]]⟩]) =
      .ok (xlsxUnits [⟨"S1", [[some "a", Option.none], [Option.none, Option.none]]⟩]) := by
  have h1 := claim_C4_xlsx_rows
    (.ok [⟨"S1", [[some "a", Option.none], [Option.none, Option.none]]⟩])
    [⟨"S1", [[some "a", Option.none], [Option.none, Option.none]]⟩]
    ⟨"S1", [[some "a", Option.none], [Option.none, Option.none]]⟩
    0 rfl (by decide) (by decide) (by decide)
  have h2 := claim_C4_xlsx_rows
    (.ok [⟨"S1", [[some "a", Option.none], [Option.none, Option.none]]⟩])
    [⟨"S1", [[some "a", Option.none], [Option.none, Option.none]]⟩]
    ⟨"S1", [[some "a", Option.none], [Option.none, Option.none]]⟩
    1 rfl (by decide) (by decide) (by decide)
  exact ⟨h1.2.1.trans (by decide), h2.2.2 (by decide), h1.1⟩

/-- C10: A spreadsheet row whose cells are all empty strings (non-null) is
not dropped: the joined text `" | "` is non-blank after stripping, so the row
yields an extraction unit whose text consists only of the separator. -/
theorem claim_C10_separator_only_row :
    extract_xlsx (.ok [⟨"S", [[some "", some ""]]⟩]) = .ok [("S", 1, " | ")] ∧
    xlsxRowText [some "", some ""] = " | " ∧ pyBlank " | " = false :=
  ⟨rfl, rfl, by decide⟩

/-- C6 counterexample: at the empty record collection (a run that matched no
files) the DataFrame infers no columns from the empty dict list, so neither
output carries the seven-column header row — the unconditional claim fails
there. -/
theorem claim_C6_empty_collection_cex :
    (to_csv ([] : List Record)).header = [] ∧
    (to_excel ([] : List Record)).header = [] ∧
    (to_csv ([] : List Record)).header ≠ sevenColumns :=
  ⟨rfl, rfl, by decide⟩

/-- C6 (amended: restricted to non-empty record collections, as the empty
collection forces): the writer serializes each record to both outputs as one
row in the fixed seven-column order, with a header row and no index column,
and neither output reorders nor drops any record
(`rows = rs.map Record.toRow`). -/
theorem claim_C6_writer_fixed_columns (rs : List Record) (hne : rs ≠ []) :
    (to_csv rs).header = sevenColumns ∧ (to_excel rs).header = sevenColumns ∧
    (to_csv rs).hasIndexColumn = false ∧ (to_excel rs).hasIndexColumn = false ∧
    (to_csv rs).rows = rs.map Record.toRow ∧ (to_excel rs).rows = rs.map Record.toRow := by
  rcases rs with _ | ⟨r, rest⟩
  · exact absurd rfl hne
  · exact ⟨rfl, rfl, rfl, rfl, rfl, rfl⟩

/-- Witness for C6 on a one-record collection. -/
theorem claim_C6_writer_fixed_columns_wit :
    (to_csv [⟨"d", "a.docx", "docx", .none, "hi", .str "", .none⟩]).header = sevenColumns ∧
    (to_excel [⟨"d", "a.docx", "docx", .none, "hi", .str "", .none⟩]).header = sevenColumns ∧
    (to_csv [⟨"d", "a.docx", "docx", .none, "hi", .str "", .none⟩]).hasIndexColumn = false ∧
    (to_excel [⟨"d", "a.docx", "docx", .none, "hi", .str "", .none⟩]).hasIndexColumn = false ∧
    (to_csv [⟨"d", "a.docx", "docx", .none, "hi", .str "", .none⟩]).rows =
      [⟨"d", "a.docx", "docx", .none, "hi", .str "", .none⟩].map Record.toRow ∧
    (to_excel [⟨"d", "a.docx", "docx", .none, "hi", .str "", .none⟩]).rows =
      [⟨"d", "a.docx", "docx", .none, "hi", .str "", .none⟩].map Record.toRow :=
  claim_C6_writer_fixed_columns [⟨"d", "a.docx", "docx", .none, "hi", .str "", .none⟩]
    (by decide)

/-- C7: For every run that reaches the writer, the CSV output and the XLSX
output contain the identical data rows in the same order (and the same
header), both being derived from the same in-memory record list. -/
theorem claim_C7_csv_xlsx_agree (seg : String → List String)
    (walk : List (String × List File)) (c x : TableOutput)
    (h : mainOutputs seg walk = .ok (c, x)) :
    c.rows = x.rows ∧ c.header = x.header := by
  rcases hpd : process_directory seg walk with e | rs
  · rw [mainOutputs, hpd] at h
    exact absurd h (by simp)
  · rw [mainOutputs, hpd] at h
    simp only [Except.ok.injEq, Prod.mk.injEq] at h
    rw [← h.1, ← h.2]
    exact ⟨rfl, rfl⟩

/-- Witness for C7 on a run over one single-page PDF file. -/
theorem claim_C7_csv_xlsx_agree_wit :
    (to_csv [⟨"d", "a.pdf", "pdf", .int 1, "hello", .none, .none⟩]).rows =
      (to_excel [⟨"d", "a.pdf", "pdf", .int 1, "hello", .none, .none⟩]).rows ∧
    (to_csv [⟨"d", "a.pdf", "pdf", .int 1, "hello", .none, .none⟩]).header =
      (to_excel [⟨"d", "a.pdf", "pdf", .int 1, "hello", .none, .none⟩]).header :=
  claim_C7_csv_xlsx_agree (fun s => [s])
    [("d", [⟨"a.pdf", .error "e", .error "e", .error "e",
      .ok [⟨.ok (some "hello"), .ok []⟩]⟩])]
    (to_csv [⟨"d", "a.pdf", "pdf", .int 1, "hello", .none, .none⟩])
    (to_excel [⟨"d", "a.pdf", "pdf", .int 1, "hello", .none, .none⟩])
    rfl

theorem docxRecords_mem (seg : String → List String) (d : String) (f : File)
    (rs : List Record) (h : docxRecords seg d f = .ok rs) :
    ∀ r ∈ rs, r.filePath = d ∧ r.fileName = f.name ∧ r.fileType = "docx" ∧
      r.pageSlideSheet = PyVal.none := by
  rcases he : extract_docx f.docxData with e | pr
  · rw [docxRecords, he] at h
    exact absurd h (by simp)
  · rw [docxRecords, he] at h
    simp only [Except.ok.injEq] at h
    intro r hr
    rw [← h] at hr
    obtain ⟨sent, hsent, hr2⟩ := List.mem_flatMap.mp hr
    obtain ⟨chunk, hchunk, hr3⟩ := List.mem_map.mp hr2
    rw [← hr3]
    exact ⟨rfl, rfl, rfl, rfl⟩

theorem pptxRecords_mem (seg : String → List String) (d : String) (f : File)
    (rs : List Record) (h : pptxRecords seg d f = .ok rs) :
    ∀ r ∈ rs, r.filePath = d ∧ r.fileName = f.name ∧ r.fileType = "pptx" ∧
      ∃ n, r.pageSlideSheet = PyVal.int n := by
  rcases he : extract_pptx f.pptxData with e | slides
  · rw [pptxRecords, he] at h
    exact absurd h (by simp)
  · rw [pptxRecords, he] at h
    simp only [Except.ok.injEq] at h
    intro r hr
    rw [← h] at hr
    obtain ⟨sl, hsl, hr2⟩ := List.mem_flatMap.mp hr
    obtain ⟨chunk, hchunk, hr3⟩ := List.mem_map.mp hr2
    rw [← hr3]
    exact ⟨rfl, rfl, rfl, sl.1, rfl⟩

theorem xlsxRecords_mem (seg : String → List String) (d : String) (f : File)
    (rs : List Record) (h : xlsxRecords seg d f = .ok rs) :
    ∀ r ∈ rs, r.filePath = d ∧ r.fileName = f.name ∧ r.fileType = "xlsx" ∧
      ∃ (s : String) (k : Nat), r.pageSlideSheet = PyVal.str (s ++ ":" ++ toString k) := by
  rcases he : extract_xlsx f.xlsxData with e | rows
  · rw [xlsxRecords, he] at h
    exact absurd h (by simp)
  · rw [xlsxRecords, he] at h
    simp only [Except.ok.injEq] at h
    intro r hr
    rw [← h] at hr
    obtain ⟨u, hu, hr2⟩ := List.mem_flatMap.mp hr
    obtain ⟨chunk, hchunk, hr3⟩ := List.mem_map.mp hr2
    rw [← hr3]
    exact ⟨rfl, rfl, rfl, u.1, u.2.1, rfl⟩

theorem pdfRecords_mem (seg : String → List String) (d : String) (f : File) :
    ∀ r ∈ pdfRecords seg d f, r.filePath = d ∧ r.fileName = f.name ∧
      r.fileType = "pdf" ∧ ∃ n, r.pageSlideSheet = PyVal.int n := by
  intro r hr
  obtain ⟨pg, hpg, hr2⟩ := List.mem_flatMap.mp hr
  obtain ⟨chunk, hchunk, hr3⟩ := List.mem_map.mp hr2
  rw [← hr3]
  exact ⟨rfl, rfl, rfl, pg.1, rfl⟩

theorem processFile_mem (seg : String → List String) (d : String) (f : File)
    (rs : List Record) (h : processFile seg d f = .ok rs) :
    ∀ r ∈ rs, recordShapeOk r := by
  rw [processFile] at h
  split_ifs at h with h1 h2 h3 h4
  · intro r hr
    obtain ⟨hp, hn, ht, hl⟩ := docxRecords_mem seg d f rs h r hr
    exact ⟨by rw [ht, hn, h1], Or.inl ⟨ht, hl⟩⟩
  · intro r hr
    obtain ⟨hp, hn, ht, hl⟩ := pptxRecords_mem seg d f rs h r hr
    exact ⟨by rw [ht, hn, h2], Or.inr (Or.inl ⟨ht, hl⟩)⟩
  · intro r hr
    obtain ⟨hp, hn, ht, hl⟩ := xlsxRecords_mem seg d f rs h r hr
    exact ⟨by rw [ht, hn, h3], Or.inr (Or.inr (Or.inl ⟨ht, hl⟩))⟩
  · simp only [Except.ok.injEq] at h
    intro r hr
    rw [← h] at hr
    obtain ⟨hp, hn, ht, hl⟩ := pdfRecords_mem seg d f r hr
    exact ⟨by rw [ht, hn, h4], Or.inr (Or.inr (Or.inr ⟨ht, hl⟩))⟩
  · simp only [Except.ok.injEq] at h
    intro r hr
    rw [← h] at hr
    simp at hr

theorem processFiles_mem (seg : String → List String) (d : String)
    (fs : List File) (rs : List Record) (h : processFiles seg d fs = .ok rs) :
    ∀ r ∈ rs, recordShapeOk r := by
  induction fs generalizing rs with
  | nil =>
    simp only [processFiles, Except.ok.injEq] at h
    intro r hr
    rw [← h] at hr
    simp at hr
  | cons f fs ih =>
    rw [processFiles] at h
    rcases h1 : processFile seg d f with e | a
    · rw [h1] at h
      exact absurd h (by simp)
    · rw [h1] at h
      rcases h2 : processFiles seg d fs with e | b
      · rw [h2] at h
        exact absurd h (by simp)
      · rw [h2] at h
        simp only [Except.ok.injEq] at h
        intro r hr
        rw [← h] at hr
        rcases List.mem_append.mp hr with hr | hr
        · exact processFile_mem seg d f a h1 r hr
        · exact ih b h2 r hr

/-- C8: Every record produced by the dispatcher has a file type tag equal to
the extension computed from its file name, and a location descriptor of the
shape fixed for that type: `None` for docx, a slide number for pptx, a
`"sheet:row"` string for xlsx, and a page number for pdf. -/
theorem claim_C8_record_invariant (seg : String → List String)
    (walk : List (String × List File)) (rs : List Record)
    (h : process_directory seg walk = .ok rs) :
    ∀ r ∈ rs, recordShapeOk r := by
  induction walk generalizing rs with
  | nil =>
    simp only [process_directory, Except.ok.injEq] at h
    intro r hr
    rw [← h] at hr
    simp at hr
  | cons entry rest ih =>
    rw [process_directory] at h
    rcases h1 : processFiles seg entry.1 entry.2 with e | a
    · rw [h1] at h
      exact absurd h (by simp)
    · rw [h1] at h
      rcases h2 : process_directory seg rest with e | b
      · rw [h2] at h
        exact absurd h (by simp)
      · rw [h2] at h
        simp only [Except.ok.injEq] at h
        intro r hr
        rw [← h] at hr
        rcases List.mem_append.mp hr with hr | hr
        · exact processFiles_mem seg entry.1 entry.2 a h1 r hr
        · exact ih b h2 r hr

/-- Witness for C8: the record produced from a one-slide pptx file satisfies
the per-type record invariant. -/
theorem claim_C8_record_invariant_wit :
    recordShapeOk ⟨"d", "deck.pptx", "pptx", .int 1, "Hi", .none, .none⟩ :=
  claim_C8_record_invariant (fun s => [s])
    [("d", [⟨"deck.pptx", .error "e", .ok [[⟨true, "Hi"⟩]], .error "e", .error "e"⟩])]
    [⟨"d", "deck.pptx", "pptx", .int 1, "Hi", .none, .none⟩] rfl
    ⟨"d", "deck.pptx", "pptx", .int 1, "Hi", .none, .none⟩ (List.mem_singleton.mpr rfl)
